import Mathlib

/-!
Verification of the CalculateSkillMetrics module
(src/CalculateSkillMetrics/CalculateSkillMetrics.py).

Shallow embedding of the computational core of
`CalculateSkillMetricsLogic`: frame validity, pixel-to-mm conversion,
bounding-box corner extraction, Euclidean distance, and the two
metric-accumulation loops (`calculateMetricsFromSequence` for bounding-box
tracks, `calculateMetricsFromROISequence` for region-of-interest tracks),
plus the track-classification part of `calculate`.

Modelling choices:
* Raw 3D positions are modelled with exact rational coordinates (`ℚ`);
  Euclidean distances live in `ℝ` via `Real.sqrt`.  Timestamps are `ℚ`.
* A markups node is the list of its control points (`List Point3`);
  the Python loop over `GetNumberOfControlPoints` becomes a list traversal.
* The Python unpacking `corner1, corner2, corner3, corner4 = corners`
  raises when the corner list does not have exactly 4 elements, so the
  bounding-box accumulator is `Option`-valued (`none` = uncaught exception).
* Python truthiness in `if lastCenter and lastTimestamp:` is modelled
  explicitly: a 3-element list is always truthy, a float is truthy iff
  nonzero, `None` is falsy.
-/

namespace CalculateSkillMetrics

/-- A raw 3D position: the `[x, y, z]` triple a control point or an ROI
center is read into. -/
structure Point3 where
  x : ℚ
  y : ℚ
  z : ℚ
deriving DecidableEq, Repr

/-- The zero position `[0, 0, 0]`, the "tool out of view" sentinel. -/
def Point3.zero : Point3 := ⟨0, 0, 0⟩

/-- Default `principlePoint` argument of `convertPixelsToMM`
(source line 222). -/
def defaultPrinciplePoint : ℚ × ℚ := (314.273, 251.183)

/-- Default `focalLength` argument of `convertPixelsToMM`
(source line 222). -/
def defaultFocalLength : ℚ := 592.667

/-- `convertPixelsToMM(self, xPixels, yPixels, zMM, principlePoint, focalLength)`
(source lines 222-225):
`xMM = (xPixels - principlePoint[0]) * zMM / focalLength`,
`yMM = (yPixels - principlePoint[1]) * zMM / focalLength`. -/
def convertPixelsToMM (xPixels yPixels zMM : ℚ) (principlePoint : ℚ × ℚ)
    (focalLength : ℚ) : ℚ × ℚ :=
  ((xPixels - principlePoint.1) * zMM / focalLength,
   (yPixels - principlePoint.2) * zMM / focalLength)

/-- `getCornerPositionsOfBoundingBox` (source lines 204-219): converts each
control point's x and y from pixels to mm (with the default calibration
constants) and keeps its z unchanged: `corners.append([xMM, yMM, pos[2]])`. -/
def getCornerPositionsOfBoundingBox (pts : List Point3) : List Point3 :=
  pts.map fun p =>
    let mm := convertPixelsToMM p.x p.y p.z defaultPrinciplePoint defaultFocalLength
    ⟨mm.1, mm.2, p.z⟩

/-- `computeCenterOfBoundingBox` (source lines 196-202): the componentwise
mean of the converted corner positions. -/
def computeCenterOfBoundingBox (pts : List Point3) : Point3 :=
  let corners := getCornerPositionsOfBoundingBox pts
  ⟨(corners.map Point3.x).sum / corners.length,
   (corners.map Point3.y).sum / corners.length,
   (corners.map Point3.z).sum / corners.length⟩

/-- `isMarkupsFrameValid` (source lines 227-237): returns `True` at the
first control point whose raw position differs from `[0, 0, 0]`, and
`False` after the loop otherwise. -/
def isMarkupsFrameValid (pts : List Point3) : Bool :=
  pts.any fun p => p ≠ Point3.zero

/-- `isROIFrameValid` (source lines 239-241): the source always returns
`True` (validity of ROI frames is a TODO stub). -/
def isROIFrameValid (_roi : Point3) : Bool :=
  true

/-- `euclideanDistance` (source lines 243-244):
`sqrt(sum((point2[j] - point1[j]) ** 2 for j in range(3)))`. -/
noncomputable def euclideanDistance (point1 point2 : Point3) : ℝ :=
  Real.sqrt (((point2.x - point1.x : ℚ) : ℝ) ^ 2
    + ((point2.y - point1.y : ℚ) : ℝ) ^ 2
    + ((point2.z - point1.z : ℚ) : ℝ) ^ 2)

/-- The remembered data of the previous valid bounding-box frame: the loop
variables `lastCenter`, `lastCorner1..4`, `lastTimestamp` of
`calculateMetricsFromSequence` (source lines 251-256, 299-304).  In the
source these are six separate variables, but they are always all `None` or
all set together (lines 264-269 clear all six, lines 299-304 set all six),
so they are bundled into one record guarded by a single `Option`. -/
structure BBLast where
  lastCenter : Point3
  lastCorner1 : Point3
  lastCorner2 : Point3
  lastCorner3 : Point3
  lastCorner4 : Point3
  lastTimestamp : ℚ

/-- The mutable state of the `calculateMetricsFromSequence` loop: the five
path-length accumulators, the usage-time accumulator, and the remembered
previous-frame data (`none` between runs, i.e. the GAP state). -/
@[ext]
structure BBState where
  centerPathLength : ℝ
  corner1PathLength : ℝ
  corner2PathLength : ℝ
  corner3PathLength : ℝ
  corner4PathLength : ℝ
  usageTime : ℚ
  last : Option BBLast

/-- Initial accumulator state of `calculateMetricsFromSequence`
(source lines 248-256): all totals `0.0`, all `last` variables `None`. -/
noncomputable def bbInit : BBState :=
  { centerPathLength := 0, corner1PathLength := 0, corner2PathLength := 0,
    corner3PathLength := 0, corner4PathLength := 0, usageTime := 0,
    last := none }

/-- One iteration of the `calculateMetricsFromSequence` loop
(source lines 258-304) on a frame `(timestamp, pts)`:
* invalid frame → clear all `last` variables and `continue`;
* valid frame → compute center and converted corners, unpack the corner
  list into exactly four corners (`none` models the Python unpacking
  exception when there are not exactly 4), accumulate distances and time
  when the previous frame data is present, and remember this frame. -/
noncomputable def bbStep (s : BBState) (timestamp : ℚ) (pts : List Point3) :
    Option BBState :=
  if isMarkupsFrameValid pts then
    let center := computeCenterOfBoundingBox pts
    match getCornerPositionsOfBoundingBox pts with
    | [corner1, corner2, corner3, corner4] =>
      match s.last with
      | some l =>
        some
          { centerPathLength :=
              s.centerPathLength + euclideanDistance l.lastCenter center,
            corner1PathLength :=
              s.corner1PathLength + euclideanDistance l.lastCorner1 corner1,
            corner2PathLength :=
              s.corner2PathLength + euclideanDistance l.lastCorner2 corner2,
            corner3PathLength :=
              s.corner3PathLength + euclideanDistance l.lastCorner3 corner3,
            corner4PathLength :=
              s.corner4PathLength + euclideanDistance l.lastCorner4 corner4,
            usageTime := s.usageTime + (timestamp - l.lastTimestamp),
            last := some ⟨center, corner1, corner2, corner3, corner4, timestamp⟩ }
      | none =>
        some { s with
          last := some ⟨center, corner1, corner2, corner3, corner4, timestamp⟩ }
    | _ => none
  else
    some { s with last := none }

/-- The `for i in range(numberOfFrames)` loop of
`calculateMetricsFromSequence`, run over the list of
`(timestamp, control points)` frames of the sequence. -/
noncomputable def bbRun (s : BBState) :
    List (ℚ × List Point3) → Option BBState
  | [] => some s
  | (t, pts) :: rest =>
    match bbStep s t pts with
    | some s2 => bbRun s2 rest
    | none => none

/-- The tuple returned by `calculateMetricsFromSequence`
(source lines 306-307). -/
structure BBMetrics where
  centerPathLength : ℝ
  totalCornerPathLength : ℝ
  corner1PathLength : ℝ
  corner2PathLength : ℝ
  corner3PathLength : ℝ
  corner4PathLength : ℝ
  usageTime : ℚ

/-- `calculateMetricsFromSequence` (source lines 246-307) on the frame list
of a bounding-box sequence; `none` models an uncaught exception
(corner unpacking with a control-point count other than 4).
`totalCornerPathLength` is built at line 306 as the sum of the four corner
accumulators. -/
noncomputable def calculateMetricsFromSequence
    (frames : List (ℚ × List Point3)) : Option BBMetrics :=
  (bbRun bbInit frames).map fun s =>
    { centerPathLength := s.centerPathLength,
      totalCornerPathLength := s.corner1PathLength + s.corner2PathLength
        + s.corner3PathLength + s.corner4PathLength,
      corner1PathLength := s.corner1PathLength,
      corner2PathLength := s.corner2PathLength,
      corner3PathLength := s.corner3PathLength,
      corner4PathLength := s.corner4PathLength,
      usageTime := s.usageTime }

/-- The mutable state of the `calculateMetricsFromROISequence` loop
(source lines 309-346).  `lastCenter` and `lastTimestamp` stay separate
`Option`s here because the accumulation guard at line 335 tests them by
Python truthiness, not by `is not None`. -/
@[ext]
structure ROIState where
  centerPathLength : ℝ
  usageTime : ℚ
  lastCenter : Option Point3
  lastTimestamp : Option ℚ

/-- Initial state of `calculateMetricsFromROISequence`
(source lines 311-315). -/
noncomputable def roiInit : ROIState :=
  { centerPathLength := 0, usageTime := 0, lastCenter := none,
    lastTimestamp := none }

/-- Python truthiness of the `lastCenter` variable: `None` is falsy; a
center is the 3-element list filled by `GetCenter`, and a nonempty list is
always truthy (even `[0.0, 0.0, 0.0]`). -/
def pyTruthyCenter : Option Point3 → Bool
  | none => false
  | some _ => true

/-- Python truthiness of the `lastTimestamp` variable: `None` is falsy,
and a float is truthy iff it is nonzero (`0.0` is falsy). -/
def pyTruthyTimestamp : Option ℚ → Bool
  | none => false
  | some t => t ≠ 0

/-- One iteration of the `calculateMetricsFromROISequence` loop
(source lines 317-344) on a frame `(timestamp, center)`:
invalid frame → clear `lastCenter`/`lastTimestamp` (dead branch, since
`isROIFrameValid` is always `True`); otherwise accumulate distance and
time when `if lastCenter and lastTimestamp:` holds, then remember this
frame's center and timestamp. -/
noncomputable def roiStep (s : ROIState) (timestamp : ℚ) (center : Point3) :
    ROIState :=
  if isROIFrameValid center then
    let s2 :=
      if pyTruthyCenter s.lastCenter && pyTruthyTimestamp s.lastTimestamp then
        match s.lastCenter, s.lastTimestamp with
        | some lastCenter, some lastTimestamp =>
          { s with
            centerPathLength :=
              s.centerPathLength + euclideanDistance lastCenter center,
            usageTime := s.usageTime + (timestamp - lastTimestamp) }
        | _, _ => s
      else s
    { s2 with lastCenter := some center, lastTimestamp := some timestamp }
  else
    { s with lastCenter := none, lastTimestamp := none }

/-- `calculateMetricsFromROISequence` (source lines 309-346) on the frame
list of an ROI sequence, returning `(centerPathLength, usageTime)`. -/
noncomputable def calculateMetricsFromROISequence
    (frames : List (ℚ × Point3)) : ℝ × ℚ :=
  let s := frames.foldl (fun s f => roiStep s f.1 f.2) roiInit
  (s.centerPathLength, s.usageTime)

/-- Substring test `sub in name` of Python, on strings. -/
def containsSubstring (sub name : String) : Bool :=
  decide (List.IsInfix sub.toList name.toList)

/-- `sequenceNode.GetName().split(" ")[0].upper()` (source line 361): the
class label of a bounding-box sequence. -/
def bbClassLabel (name : String) : String :=
  ((name.splitOn " ").headD "").toUpper

/-- `sequenceNode.GetName().split("_")[0].upper()` (source line 365): the
class label of an ROI sequence (before the `"_ROI"` suffix is appended at
report time). -/
def roiClassLabel (name : String) : String :=
  ((name.splitOn "_").headD "").toUpper

/-- `f"{self.roiSequences[i][0]}_ROI"` (source line 397): the report label
of an ROI class. -/
def roiReportLabel (classLabel : String) : String :=
  classLabel ++ "_ROI"

/-- The classification loop of `calculate` (source lines 355-366): one
pass over the synchronized sequence names, appending
`[name.split(" ")[0].upper(), node]` to `boundingBoxSequences` when the
name contains `"Markups Sequence"` and `[name.split("_")[0].upper(), node]`
to `roiSequences` when it contains `"ROI_SEQUENCE"`.  The node is
represented by its name. -/
def classifySequences : List String → List (String × String) × List (String × String)
  | [] => ([], [])
  | name :: rest =>
    let tail := classifySequences rest
    ((if containsSubstring "Markups Sequence" name then
        [(bbClassLabel name, name)] else []) ++ tail.1,
     (if containsSubstring "ROI_SEQUENCE" name then
        [(roiClassLabel name, name)] else []) ++ tail.2)

/-! ## Helper definitions and lemmas -/

/-- The six numeric accumulators of a bounding-box traversal state, as one
tuple (five path lengths and the usage time). -/
noncomputable def BBState.accums (s : BBState) : ℝ × ℝ × ℝ × ℝ × ℝ × ℚ :=
  (s.centerPathLength, s.corner1PathLength, s.corner2PathLength,
   s.corner3PathLength, s.corner4PathLength, s.usageTime)

/-- The two numeric accumulators of an ROI traversal state. -/
noncomputable def ROIState.accums (r : ROIState) : ℝ × ℚ :=
  (r.centerPathLength, r.usageTime)

/-- Adding a fixed offset `a` to every accumulator of a traversal state,
leaving the remembered-frame data unchanged. -/
noncomputable def shiftBB (a s : BBState) : BBState :=
  { centerPathLength := a.centerPathLength + s.centerPathLength,
    corner1PathLength := a.corner1PathLength + s.corner1PathLength,
    corner2PathLength := a.corner2PathLength + s.corner2PathLength,
    corner3PathLength := a.corner3PathLength + s.corner3PathLength,
    corner4PathLength := a.corner4PathLength + s.corner4PathLength,
    usageTime := a.usageTime + s.usageTime,
    last := s.last }

/-- The fold underlying `calculateMetricsFromROISequence`. -/
noncomputable def roiFold (r : ROIState) (frames : List (ℚ × Point3)) : ROIState :=
  frames.foldl (fun s f => roiStep s f.1 f.2) r

lemma calcROI_eq (frames : List (ℚ × Point3)) :
    calculateMetricsFromROISequence frames =
      ((roiFold roiInit frames).centerPathLength,
       (roiFold roiInit frames).usageTime) :=
  rfl

lemma list_length_four {α : Type} {l : List α} (h : l.length = 4) :
    ∃ a b c d, l = [a, b, c, d] := by
  match l, h with
  | [a, b, c, d], _ => exact ⟨a, b, c, d, rfl⟩

lemma getCornerPositions_length (pts : List Point3) :
    (getCornerPositionsOfBoundingBox pts).length = pts.length := by
  simp [getCornerPositionsOfBoundingBox]

/-- Invalid frame: the loop clears the `last` variables and skips the rest
of the iteration. -/
lemma bbStep_invalid (s : BBState) (t : ℚ) (pts : List Point3)
    (h : isMarkupsFrameValid pts = false) :
    bbStep s t pts = some { s with last := none } := by
  simp [bbStep, h]

/-- Valid frame while in the GAP state: remember the frame, add nothing. -/
lemma bbStep_valid_gap (s : BBState) (t : ℚ) (pts : List Point3)
    (c1 c2 c3 c4 : Point3)
    (hv : isMarkupsFrameValid pts = true)
    (hc : getCornerPositionsOfBoundingBox pts = [c1, c2, c3, c4])
    (hl : s.last = none) :
    bbStep s t pts =
      some { s with
        last := some ⟨computeCenterOfBoundingBox pts, c1, c2, c3, c4, t⟩ } := by
  simp [bbStep, hv, hc, hl]

/-- Valid frame while in the TRACKING state: accumulate the five distances
and the time difference, then remember the frame. -/
lemma bbStep_valid_tracking (s : BBState) (t : ℚ) (pts : List Point3)
    (c1 c2 c3 c4 : Point3) (l : BBLast)
    (hv : isMarkupsFrameValid pts = true)
    (hc : getCornerPositionsOfBoundingBox pts = [c1, c2, c3, c4])
    (hl : s.last = some l) :
    bbStep s t pts =
      some
        { centerPathLength := s.centerPathLength
            + euclideanDistance l.lastCenter (computeCenterOfBoundingBox pts),
          corner1PathLength := s.corner1PathLength
            + euclideanDistance l.lastCorner1 c1,
          corner2PathLength := s.corner2PathLength
            + euclideanDistance l.lastCorner2 c2,
          corner3PathLength := s.corner3PathLength
            + euclideanDistance l.lastCorner3 c3,
          corner4PathLength := s.corner4PathLength
            + euclideanDistance l.lastCorner4 c4,
          usageTime := s.usageTime + (t - l.lastTimestamp),
          last := some ⟨computeCenterOfBoundingBox pts, c1, c2, c3, c4, t⟩ } := by
  simp [bbStep, hv, hc, hl]

/-- Inversion on one successful bounding-box loop iteration. -/
lemma bbStep_some_inv {s s' : BBState} {t : ℚ} {pts : List Point3}
    (h : bbStep s t pts = some s') :
    (isMarkupsFrameValid pts = false ∧ s' = { s with last := none }) ∨
    (isMarkupsFrameValid pts = true ∧ ∃ c1 c2 c3 c4,
      getCornerPositionsOfBoundingBox pts = [c1, c2, c3, c4] ∧
      ((s.last = none ∧
        s' = { s with
          last := some ⟨computeCenterOfBoundingBox pts, c1, c2, c3, c4, t⟩ }) ∨
       (∃ l, s.last = some l ∧
        s' =
          { centerPathLength := s.centerPathLength
              + euclideanDistance l.lastCenter (computeCenterOfBoundingBox pts),
            corner1PathLength := s.corner1PathLength
              + euclideanDistance l.lastCorner1 c1,
            corner2PathLength := s.corner2PathLength
              + euclideanDistance l.lastCorner2 c2,
            corner3PathLength := s.corner3PathLength
              + euclideanDistance l.lastCorner3 c3,
            corner4PathLength := s.corner4PathLength
              + euclideanDistance l.lastCorner4 c4,
            usageTime := s.usageTime + (t - l.lastTimestamp),
            last := some ⟨computeCenterOfBoundingBox pts, c1, c2, c3, c4, t⟩ }))) := by
  simp only [bbStep] at h
  split at h
  next hv =>
    right
    refine ⟨hv, ?_⟩
    split at h
    next c1 c2 c3 c4 heq =>
      refine ⟨c1, c2, c3, c4, heq, ?_⟩
      split at h
      next l hl => exact Or.inr ⟨l, hl, (Option.some_inj.mp h).symm⟩
      next hl => exact Or.inl ⟨hl, (Option.some_inj.mp h).symm⟩
    next hne => cases h
  next hv =>
    left
    exact ⟨by simpa using hv, (Option.some_inj.mp h).symm⟩

lemma euclideanDistance_nonneg (p q : Point3) : 0 ≤ euclideanDistance p q :=
  Real.sqrt_nonneg _

/-- Each of the five path-length accumulators never decreases across one
successful loop iteration. -/
lemma bbStep_path_mono {s s' : BBState} {t : ℚ} {pts : List Point3}
    (h : bbStep s t pts = some s') :
    s.centerPathLength ≤ s'.centerPathLength ∧
    s.corner1PathLength ≤ s'.corner1PathLength ∧
    s.corner2PathLength ≤ s'.corner2PathLength ∧
    s.corner3PathLength ≤ s'.corner3PathLength ∧
    s.corner4PathLength ≤ s'.corner4PathLength := by
  rcases bbStep_some_inv h with ⟨_, rfl⟩ |
    ⟨_, c1, c2, c3, c4, _, ⟨_, rfl⟩ | ⟨l, _, rfl⟩⟩
  · exact ⟨le_refl _, le_refl _, le_refl _, le_refl _, le_refl _⟩
  · exact ⟨le_refl _, le_refl _, le_refl _, le_refl _, le_refl _⟩
  · exact ⟨le_add_of_nonneg_right (euclideanDistance_nonneg _ _),
      le_add_of_nonneg_right (euclideanDistance_nonneg _ _),
      le_add_of_nonneg_right (euclideanDistance_nonneg _ _),
      le_add_of_nonneg_right (euclideanDistance_nonneg _ _),
      le_add_of_nonneg_right (euclideanDistance_nonneg _ _)⟩

/-- The usage-time accumulator either stays put or receives exactly the
difference between the current and the remembered timestamp. -/
lemma bbStep_usage {s s' : BBState} {t : ℚ} {pts : List Point3}
    (h : bbStep s t pts = some s') :
    s'.usageTime = s.usageTime ∨
      ∃ l, s.last = some l ∧
        s'.usageTime = s.usageTime + (t - l.lastTimestamp) := by
  rcases bbStep_some_inv h with ⟨_, rfl⟩ |
    ⟨_, c1, c2, c3, c4, _, ⟨_, rfl⟩ | ⟨l, hl, rfl⟩⟩
  · exact Or.inl rfl
  · exact Or.inl rfl
  · exact Or.inr ⟨l, hl, rfl⟩

/-- A loop iteration taken from the GAP state (no remembered frame) leaves
all six accumulators unchanged. -/
lemma bbStep_accums_of_gap {s s' : BBState} {t : ℚ} {pts : List Point3}
    (h : bbStep s t pts = some s') (hl : s.last = none) :
    s'.accums = s.accums := by
  rcases bbStep_some_inv h with ⟨_, rfl⟩ |
    ⟨_, c1, c2, c3, c4, _, ⟨_, rfl⟩ | ⟨l, hls, rfl⟩⟩
  · rfl
  · rfl
  · rw [hl] at hls; cases hls

/-- A loop iteration on an invalid frame leaves all six accumulators
unchanged. -/
lemma bbStep_accums_of_invalid {s s' : BBState} {t : ℚ} {pts : List Point3}
    (h : bbStep s t pts = some s') (hv : isMarkupsFrameValid pts = false) :
    s'.accums = s.accums := by
  rw [bbStep_invalid s t pts hv] at h
  rw [← Option.some_inj.mp h]
  rfl

/-- ROI iteration when the truthiness guard fails: remember the frame, add
nothing. -/
lemma roiStep_not_tracking (r : ROIState) (t : ℚ) (c : Point3)
    (h : pyTruthyCenter r.lastCenter = false ∨
      pyTruthyTimestamp r.lastTimestamp = false) :
    roiStep r t c = { r with lastCenter := some c, lastTimestamp := some t } := by
  rcases h with h | h <;> simp [roiStep, isROIFrameValid, h]

/-- ROI iteration when the truthiness guard passes: accumulate distance and
time difference, then remember the frame. -/
lemma roiStep_tracking (r : ROIState) (t : ℚ) (c : Point3) (lc : Point3)
    (lt : ℚ) (hc : r.lastCenter = some lc) (ht : r.lastTimestamp = some lt)
    (hne : lt ≠ 0) :
    roiStep r t c =
      { centerPathLength := r.centerPathLength + euclideanDistance lc c,
        usageTime := r.usageTime + (t - lt),
        lastCenter := some c, lastTimestamp := some t } := by
  simp [roiStep, isROIFrameValid, pyTruthyCenter, pyTruthyTimestamp, hc, ht, hne]

/-- The ROI path-length accumulator never decreases across one iteration. -/
lemma roiStep_path_mono (r : ROIState) (t : ℚ) (c : Point3) :
    r.centerPathLength ≤ (roiStep r t c).centerPathLength := by
  rcases hc : r.lastCenter with _ | lc
  · rw [roiStep_not_tracking r t c (Or.inl (by simp [pyTruthyCenter, hc]))]
  · rcases ht : r.lastTimestamp with _ | lt
    · rw [roiStep_not_tracking r t c (Or.inr (by simp [pyTruthyTimestamp, ht]))]
    · by_cases hne : lt = 0
      · rw [roiStep_not_tracking r t c
          (Or.inr (by simp [pyTruthyTimestamp, ht, hne]))]
      · rw [roiStep_tracking r t c lc lt hc ht hne]
        exact le_add_of_nonneg_right (euclideanDistance_nonneg _ _)

/-- The ROI usage-time accumulator either stays put or receives exactly the
difference between the current and the remembered timestamp. -/
lemma roiStep_usage (r : ROIState) (t : ℚ) (c : Point3) :
    (roiStep r t c).usageTime = r.usageTime ∨
      ∃ lt, r.lastTimestamp = some lt ∧
        (roiStep r t c).usageTime = r.usageTime + (t - lt) := by
  rcases hc : r.lastCenter with _ | lc
  · rw [roiStep_not_tracking r t c (Or.inl (by simp [pyTruthyCenter, hc]))]
    exact Or.inl rfl
  · rcases ht : r.lastTimestamp with _ | lt
    · rw [roiStep_not_tracking r t c (Or.inr (by simp [pyTruthyTimestamp, ht]))]
      exact Or.inl rfl
    · by_cases hne : lt = 0
      · rw [roiStep_not_tracking r t c
          (Or.inr (by simp [pyTruthyTimestamp, ht, hne]))]
        exact Or.inl rfl
      · rw [roiStep_tracking r t c lc lt hc ht hne]
        exact Or.inr ⟨lt, rfl, rfl⟩

/-- An ROI iteration with no remembered previous frame leaves the two
accumulators unchanged. -/
lemma roiStep_accums_no_last (r : ROIState) (t : ℚ) (c : Point3)
    (h : r.lastCenter = none ∨ r.lastTimestamp = none) :
    (roiStep r t c).accums = r.accums := by
  rcases h with h | h
  · rw [roiStep_not_tracking r t c (Or.inl (by simp [pyTruthyCenter, h]))]; rfl
  · rw [roiStep_not_tracking r t c (Or.inr (by simp [pyTruthyTimestamp, h]))]; rfl

/-- Running the loop over an appended frame list is running it over the
first part and continuing over the second. -/
lemma bbRun_append (l1 l2 : List (ℚ × List Point3)) :
    ∀ s : BBState, bbRun s (l1 ++ l2) = (bbRun s l1).bind fun s2 => bbRun s2 l2 := by
  induction l1 with
  | nil => intro s; rfl
  | cons f rest ih =>
    intro s
    obtain ⟨t, pts⟩ := f
    simp only [List.cons_append, bbRun]
    cases bbStep s t pts with
    | none => rfl
    | some s2 => exact ih s2

/-- One loop iteration commutes with shifting the accumulators: the frame's
contribution does not depend on the totals already accumulated. -/
lemma bbStep_shift (a s : BBState) (t : ℚ) (pts : List Point3) :
    bbStep (shiftBB a s) t pts = (bbStep s t pts).map (shiftBB a) := by
  by_cases hv : isMarkupsFrameValid pts
  · rcases hcs : getCornerPositionsOfBoundingBox pts with
      _ | ⟨c1, _ | ⟨c2, _ | ⟨c3, _ | ⟨c4, _ | rest⟩⟩⟩⟩
    · simp [bbStep, hv, hcs]
    · simp [bbStep, hv, hcs]
    · simp [bbStep, hv, hcs]
    · simp [bbStep, hv, hcs]
    · rcases hls : s.last with _ | l
      · rw [bbStep_valid_gap s t pts c1 c2 c3 c4 hv hcs hls,
          bbStep_valid_gap (shiftBB a s) t pts c1 c2 c3 c4 hv hcs
            (by simp [shiftBB, hls])]
        rfl
      · rw [bbStep_valid_tracking s t pts c1 c2 c3 c4 l hv hcs hls,
          bbStep_valid_tracking (shiftBB a s) t pts c1 c2 c3 c4 l hv hcs
            (by simp [shiftBB, hls])]
        refine congrArg some ?_
        ext <;> simp [shiftBB] <;> ring
    · simp [bbStep, hv, hcs]
  · rw [bbStep_invalid s t pts (by simpa using hv),
      bbStep_invalid (shiftBB a s) t pts (by simpa using hv)]
    rfl

/-- The whole loop commutes with shifting the accumulators. -/
lemma bbRun_shift (frames : List (ℚ × List Point3)) :
    ∀ a s : BBState,
      bbRun (shiftBB a s) frames = (bbRun s frames).map (shiftBB a) := by
  induction frames with
  | nil => intro a s; rfl
  | cons f rest ih =>
    intro a s
    obtain ⟨t, pts⟩ := f
    simp only [bbRun, bbStep_shift]
    cases bbStep s t pts with
    | none => rfl
    | some s2 => exact ih a s2

/-- Shifting the fresh initial state by `a` is `a` with its remembered
frame cleared. -/
lemma shiftBB_init (a : BBState) : shiftBB a bbInit = { a with last := none } := by
  ext <;> simp [shiftBB, bbInit]

/-- A run over invalid frames only always succeeds and accumulates
nothing. -/
lemma bbRun_all_invalid (frames : List (ℚ × List Point3)) :
    ∀ s : BBState, (∀ f ∈ frames, isMarkupsFrameValid f.2 = false) →
    ∃ s', bbRun s frames = some s' ∧ s'.accums = s.accums := by
  induction frames with
  | nil => exact fun s _ => ⟨s, rfl, rfl⟩
  | cons f rest ih =>
    rintro s h
    obtain ⟨t, pts⟩ := f
    have hstep := bbStep_invalid s t pts (h (t, pts) (by simp))
    obtain ⟨s', hrun, hacc⟩ :=
      ih { s with last := none } (fun f hf => h f (List.mem_cons_of_mem _ hf))
    refine ⟨s', ?_, ?_⟩
    · simp only [bbRun, hstep]; exact hrun
    · rw [hacc]; rfl

/-- On a well-formed track (every valid frame carries exactly 4 control
points) the loop never raises: it always returns a final state. -/
lemma bbRun_isSome_of_wf (frames : List (ℚ × List Point3)) :
    ∀ s : BBState,
    (∀ f ∈ frames, isMarkupsFrameValid f.2 = true → f.2.length = 4) →
    ∃ s', bbRun s frames = some s' := by
  induction frames with
  | nil => exact fun s _ => ⟨s, rfl⟩
  | cons f rest ih =>
    rintro s h
    obtain ⟨t, pts⟩ := f
    have hrest : ∀ f ∈ rest, isMarkupsFrameValid f.2 = true → f.2.length = 4 :=
      fun f hf => h f (List.mem_cons_of_mem _ hf)
    by_cases hv : isMarkupsFrameValid pts
    · obtain ⟨c1, c2, c3, c4, hc⟩ := list_length_four
        ((getCornerPositions_length pts).trans
          (h (t, pts) (List.mem_cons_self _ _) hv))
      rcases hls : s.last with _ | l
      · obtain ⟨s', hrun⟩ := ih _ hrest
        exact ⟨s', by
          simp only [bbRun, bbStep_valid_gap s t pts c1 c2 c3 c4 hv hc hls]
          exact hrun⟩
      · obtain ⟨s', hrun⟩ := ih _ hrest
        exact ⟨s', by
          simp only [bbRun,
            bbStep_valid_tracking s t pts c1 c2 c3 c4 l hv hc hls]
          exact hrun⟩
    · obtain ⟨s', hrun⟩ := ih _ hrest
      exact ⟨s', by
        simp only [bbRun, bbStep_invalid s t pts (by simpa using hv)]
        exact hrun⟩

/-- A well-formed run that starts in the GAP state and contains at most one
valid frame accumulates nothing. -/
lemma bbRun_no_accum (frames : List (ℚ × List Point3)) :
    ∀ s : BBState, s.last = none →
    (∀ f ∈ frames, isMarkupsFrameValid f.2 = true → f.2.length = 4) →
    (frames.filter fun f => isMarkupsFrameValid f.2).length ≤ 1 →
    ∃ s', bbRun s frames = some s' ∧ s'.accums = s.accums := by
  induction frames with
  | nil => exact fun s _ _ _ => ⟨s, rfl, rfl⟩
  | cons f rest ih =>
    rintro s hlast h hcount
    obtain ⟨t, pts⟩ := f
    by_cases hv : isMarkupsFrameValid pts
    · have hrest : ∀ f ∈ rest, isMarkupsFrameValid f.2 = false := by
        have hzero : (rest.filter fun f => isMarkupsFrameValid f.2).length = 0 := by
          simp only [List.filter_cons] at hcount
          rw [if_pos (by simpa using hv)] at hcount
          simp only [List.length_cons] at hcount
          omega
        have hnil : rest.filter (fun f => isMarkupsFrameValid f.2) = [] :=
          List.length_eq_zero.mp hzero
        intro f hf
        by_contra hne
        have hmem : f ∈ rest.filter fun f => isMarkupsFrameValid f.2 :=
          List.mem_filter.mpr ⟨hf, by simpa using hne⟩
        rw [hnil] at hmem
        cases hmem
      obtain ⟨c1, c2, c3, c4, hc⟩ := list_length_four
        ((getCornerPositions_length pts).trans
          (h (t, pts) (List.mem_cons_self _ _) hv))
      obtain ⟨s', hrun, hacc⟩ := bbRun_all_invalid rest _ hrest
      refine ⟨s', ?_, ?_⟩
      · simp only [bbRun, bbStep_valid_gap s t pts c1 c2 c3 c4 hv hc hlast]
        exact hrun
      · rw [hacc]; rfl
    · have hstep := bbStep_invalid s t pts (by simpa using hv)
      have hcount2 : (rest.filter fun f => isMarkupsFrameValid f.2).length ≤ 1 := by
        simpa [List.filter_cons, hv] using hcount
      obtain ⟨s', hrun, hacc⟩ := ih { s with last := none } rfl
        (fun f hf => h f (List.mem_cons_of_mem _ hf)) hcount2
      refine ⟨s', ?_, ?_⟩
      · simp only [bbRun, hstep]; exact hrun
      · rw [hacc]; rfl

/-- Over a whole run, each of the five path-length accumulators never
decreases. -/
lemma bbRun_path_mono (frames : List (ℚ × List Point3)) :
    ∀ {s s' : BBState}, bbRun s frames = some s' →
    s.centerPathLength ≤ s'.centerPathLength ∧
    s.corner1PathLength ≤ s'.corner1PathLength ∧
    s.corner2PathLength ≤ s'.corner2PathLength ∧
    s.corner3PathLength ≤ s'.corner3PathLength ∧
    s.corner4PathLength ≤ s'.corner4PathLength := by
  induction frames with
  | nil =>
    intro s s' h
    obtain rfl := Option.some_inj.mp h
    exact ⟨le_refl _, le_refl _, le_refl _, le_refl _, le_refl _⟩
  | cons f rest ih =>
    intro s s' h
    obtain ⟨t, pts⟩ := f
    simp only [bbRun] at h
    cases hstep : bbStep s t pts with
    | none => rw [hstep] at h; cases h
    | some s2 =>
      rw [hstep] at h
      obtain ⟨m1, m2, m3, m4, m5⟩ := bbStep_path_mono hstep
      obtain ⟨n1, n2, n3, n4, n5⟩ := ih h
      exact ⟨m1.trans n1, m2.trans n2, m3.trans n3, m4.trans n4, m5.trans n5⟩

/-- Over a whole ROI run, the path-length accumulator never decreases. -/
lemma roiFold_path_mono (frames : List (ℚ × Point3)) :
    ∀ r : ROIState, r.centerPathLength ≤ (roiFold r frames).centerPathLength := by
  induction frames with
  | nil => exact fun r => le_refl _
  | cons f rest ih =>
    intro r
    exact (roiStep_path_mono r f.1 f.2).trans (ih (roiStep r f.1 f.2))

/-- After a successful iteration, the remembered timestamp (when present)
is the timestamp of the frame just processed. -/
lemma bbStep_last_timestamp {s s' : BBState} {t : ℚ} {pts : List Point3}
    (h : bbStep s t pts = some s') :
    s'.last = none ∨ ∃ l', s'.last = some l' ∧ l'.lastTimestamp = t := by
  rcases bbStep_some_inv h with ⟨_, rfl⟩ |
    ⟨_, c1, c2, c3, c4, _, ⟨_, rfl⟩ | ⟨l, _, rfl⟩⟩
  · exact Or.inl rfl
  · exact Or.inr ⟨_, rfl, rfl⟩
  · exact Or.inr ⟨_, rfl, rfl⟩

/-- On a track whose timestamps are sorted (the Track data-model
invariant), and from a state whose remembered timestamp (if any) is at
most every frame's timestamp, the usage-time accumulator never decreases
over the whole run. -/
lemma bbRun_usage_mono (frames : List (ℚ × List Point3)) :
    ∀ s s' : BBState,
    List.Pairwise (fun a b : ℚ × List Point3 => a.1 ≤ b.1) frames →
    (∀ l, s.last = some l → ∀ f ∈ frames, l.lastTimestamp ≤ f.1) →
    bbRun s frames = some s' → s.usageTime ≤ s'.usageTime := by
  induction frames with
  | nil =>
    intro s s' _ _ h
    obtain rfl := Option.some_inj.mp h
    exact le_refl _
  | cons f rest ih =>
    intro s s' hsort hlow h
    obtain ⟨t, pts⟩ := f
    simp only [bbRun] at h
    cases hstep : bbStep s t pts with
    | none => rw [hstep] at h; cases h
    | some s2 =>
      rw [hstep] at h
      obtain ⟨hhead, htail⟩ := List.pairwise_cons.mp hsort
      have step_le : s.usageTime ≤ s2.usageTime := by
        rcases bbStep_usage hstep with he | ⟨l, hl, he⟩
        · rw [he]
        · rw [he]
          have := hlow l hl (t, pts) (List.mem_cons_self _ _)
          linarith
      have hlow2 : ∀ l, s2.last = some l → ∀ f ∈ rest, l.lastTimestamp ≤ f.1 := by
        intro l hl f hf
        rcases bbStep_last_timestamp hstep with hn | ⟨l', hl', hts⟩
        · rw [hn] at hl; cases hl
        · rw [hl'] at hl
          obtain rfl := Option.some_inj.mp hl
          rw [hts]
          exact hhead f hf
      exact step_le.trans (ih s2 s' htail hlow2 h)

/-- Every ROI iteration remembers the current frame's timestamp. -/
lemma roiStep_lastTimestamp (r : ROIState) (t : ℚ) (c : Point3) :
    (roiStep r t c).lastTimestamp = some t :=
  rfl

/-- ROI analogue of `bbRun_usage_mono`: over a sorted track the usage-time
accumulator never decreases. -/
lemma roiFold_usage_mono (frames : List (ℚ × Point3)) :
    ∀ r : ROIState,
    List.Pairwise (fun a b : ℚ × Point3 => a.1 ≤ b.1) frames →
    (∀ lt, r.lastTimestamp = some lt → ∀ f ∈ frames, lt ≤ f.1) →
    r.usageTime ≤ (roiFold r frames).usageTime := by
  induction frames with
  | nil => exact fun r _ _ => le_refl _
  | cons f rest ih =>
    intro r hsort hlow
    obtain ⟨hhead, htail⟩ := List.pairwise_cons.mp hsort
    have step_le : r.usageTime ≤ (roiStep r f.1 f.2).usageTime := by
      rcases roiStep_usage r f.1 f.2 with he | ⟨lt, hlt, he⟩
      · rw [he]
      · rw [he]
        have := hlow lt hlt f (List.mem_cons_self _ _)
        linarith
    have hlow2 : ∀ lt, (roiStep r f.1 f.2).lastTimestamp = some lt →
        ∀ f2 ∈ rest, lt ≤ f2.1 := by
      intro lt hlt f2 hf2
      rw [roiStep_lastTimestamp] at hlt
      obtain rfl := Option.some_inj.mp hlt
      exact hhead f2 hf2
    exact step_le.trans (ih (roiStep r f.1 f.2) htail hlow2)

/-! ## Claim theorems -/

/-- C2 (corner-sum identity): for every bounding-box track, the returned
`totalCornerPathLength` equals the sum of the four individually returned
corner path lengths. -/
theorem corner_sum_identity (frames : List (ℚ × List Point3)) (m : BBMetrics)
    (h : calculateMetricsFromSequence frames = some m) :
    m.totalCornerPathLength =
      m.corner1PathLength + m.corner2PathLength + m.corner3PathLength +
        m.corner4PathLength := by
  unfold calculateMetricsFromSequence at h
  cases hb : bbRun bbInit frames with
  | none => rw [hb] at h; cases h
  | some s =>
    rw [hb, Option.map_some'] at h
    obtain rfl := Option.some_inj.mp h
    rfl

/-- Witness for C2, at the empty track. -/
theorem corner_sum_identity_witness :
    calculateMetricsFromSequence [] =
      some ⟨0, 0 + 0 + 0 + 0, 0, 0, 0, 0, 0⟩ ∧
    (⟨0, 0 + 0 + 0 + 0, 0, 0, 0, 0, 0⟩ : BBMetrics).totalCornerPathLength =
      (⟨0, 0 + 0 + 0 + 0, 0, 0, 0, 0, 0⟩ : BBMetrics).corner1PathLength +
      (⟨0, 0 + 0 + 0 + 0, 0, 0, 0, 0, 0⟩ : BBMetrics).corner2PathLength +
      (⟨0, 0 + 0 + 0 + 0, 0, 0, 0, 0, 0⟩ : BBMetrics).corner3PathLength +
      (⟨0, 0 + 0 + 0 + 0, 0, 0, 0, 0, 0⟩ : BBMetrics).corner4PathLength :=
  ⟨rfl, corner_sum_identity [] ⟨0, 0 + 0 + 0 + 0, 0, 0, 0, 0, 0⟩ rfl⟩

/-- C3 (bounding-box frame validity): `isMarkupsFrameValid` on a 4-point
frame returns `false` iff all 4 raw points are exactly `(0,0,0)`, and
`true` whenever at least one point is non-zero (an OR across points). -/
theorem markups_frame_validity (p1 p2 p3 p4 : Point3) :
    (isMarkupsFrameValid [p1, p2, p3, p4] = false ↔
      (p1 = Point3.zero ∧ p2 = Point3.zero ∧ p3 = Point3.zero ∧
        p4 = Point3.zero)) ∧
    (isMarkupsFrameValid [p1, p2, p3, p4] = true ↔
      (p1 ≠ Point3.zero ∨ p2 ≠ Point3.zero ∨ p3 ≠ Point3.zero ∨
        p4 ≠ Point3.zero)) := by
  constructor <;> simp [isMarkupsFrameValid]

/-- C4 (coordinate normalizer): `convertPixelsToMM` computes
`xMM = (xPixels - principlePoint.x) * zMM / focalLength` and
`yMM = (yPixels - principlePoint.y) * zMM / focalLength`; the default
calibration constants are `(314.273, 251.183)` and `592.667`; and in
`getCornerPositionsOfBoundingBox` the z component passes through
unchanged.  Purity is inherent: the embedding is a pure function of its
arguments. -/
theorem coordinate_normalizer_formula (xPixels yPixels zMM : ℚ)
    (principlePoint : ℚ × ℚ) (focalLength : ℚ) (pts : List Point3) :
    convertPixelsToMM xPixels yPixels zMM principlePoint focalLength =
      ((xPixels - principlePoint.1) * zMM / focalLength,
       (yPixels - principlePoint.2) * zMM / focalLength) ∧
    defaultPrinciplePoint = (314.273, 251.183) ∧
    defaultFocalLength = 592.667 ∧
    getCornerPositionsOfBoundingBox pts = pts.map (fun p =>
      ⟨(p.x - 314.273) * p.z / 592.667, (p.y - 251.183) * p.z / 592.667,
        p.z⟩) := by
  refine ⟨rfl, rfl, rfl, ?_⟩
  simp [getCornerPositionsOfBoundingBox, convertPixelsToMM,
    defaultPrinciplePoint, defaultFocalLength]

/-- C9 (empty frame is invalid): a bounding-box frame with zero control
points fails `isMarkupsFrameValid` (the OR over zero points is vacuously
false), so the accumulator treats it as a gap — it resets the remembered
state and returns normally, never reaching the four-corner unpacking. -/
theorem empty_frame_invalid_gap (s : BBState) (t : ℚ) :
    isMarkupsFrameValid [] = false ∧
    bbStep s t [] = some { s with last := none } :=
  ⟨rfl, bbStep_invalid s t [] rfl⟩

/-- C6 (falsy-timestamp behavior): when a region track's first frame has
timestamp exactly `0.0`, the guard `if lastCenter and lastTimestamp:` is
falsy at the second frame, so the distance and elapsed time between the
first and second frames are silently dropped: the result is the same as if
the first frame were absent, and a two-frame track starting at timestamp 0
yields all-zero metrics. -/
theorem roi_zero_first_timestamp_skips_accumulation (c1 c2 : Point3)
    (t2 : ℚ) (rest : List (ℚ × Point3)) :
    calculateMetricsFromROISequence ((0, c1) :: (t2, c2) :: rest) =
      calculateMetricsFromROISequence ((t2, c2) :: rest) ∧
    calculateMetricsFromROISequence [(0, c1), (t2, c2)] = (0, 0) := by
  have h1 : roiStep roiInit 0 c1 =
      { roiInit with lastCenter := some c1, lastTimestamp := some 0 } :=
    roiStep_not_tracking roiInit 0 c1 (Or.inl rfl)
  have h2 : roiStep
      { roiInit with lastCenter := some c1, lastTimestamp := some 0 } t2 c2 =
      { roiInit with lastCenter := some c2, lastTimestamp := some t2 } := by
    rw [roiStep_not_tracking _ t2 c2 (Or.inr (by simp [pyTruthyTimestamp]))]
  have h3 : roiStep roiInit t2 c2 =
      { roiInit with lastCenter := some c2, lastTimestamp := some t2 } :=
    roiStep_not_tracking roiInit t2 c2 (Or.inl rfl)
  have key : roiStep (roiStep roiInit 0 c1) t2 c2 = roiStep roiInit t2 c2 := by
    rw [h1, h2, h3]
  constructor
  · have hfold : roiFold roiInit ((0, c1) :: (t2, c2) :: rest) =
        roiFold roiInit ((t2, c2) :: rest) :=
      congrArg (fun r => roiFold r rest) key
    rw [calcROI_eq, calcROI_eq, hfold]
  · have hfold : roiFold roiInit [(0, c1), (t2, c2)] =
        { roiInit with lastCenter := some c2, lastTimestamp := some t2 } := by
      show roiStep (roiStep roiInit 0 c1) t2 c2 = _
      rw [h1, h2]
    rw [calcROI_eq, hfold]
    rfl

/-- C7 (track classification and labels): a sequence lands in the
bounding-box list iff its name contains `"Markups Sequence"` and in the
ROI list iff it contains `"ROI_SEQUENCE"`, in enumeration order; the
bounding-box class label is the part of the name before the first space,
upper-cased; the ROI class label is the part before the first underscore,
upper-cased, and the report label appends `"_ROI"`; names matching neither
pattern appear in neither list. -/
theorem track_classification (names : List String) :
    (classifySequences names).1 =
      (names.filter fun n => containsSubstring "Markups Sequence" n).map
        (fun n => (((n.splitOn " ").headD "").toUpper, n)) ∧
    (classifySequences names).2 =
      (names.filter fun n => containsSubstring "ROI_SEQUENCE" n).map
        (fun n => (((n.splitOn "_").headD "").toUpper, n)) ∧
    (∀ label : String, roiReportLabel label = label ++ "_ROI") ∧
    ∀ n ∈ names, containsSubstring "Markups Sequence" n = false →
      containsSubstring "ROI_SEQUENCE" n = false →
      (∀ p ∈ (classifySequences names).1, p.2 ≠ n) ∧
      (∀ p ∈ (classifySequences names).2, p.2 ≠ n) := by
  have h1 : ∀ ns : List String, (classifySequences ns).1 =
      (ns.filter fun n => containsSubstring "Markups Sequence" n).map
        (fun n => (bbClassLabel n, n)) := by
    intro ns
    induction ns with
    | nil => rfl
    | cons n rest ih =>
      simp only [classifySequences, List.filter_cons]
      by_cases h : containsSubstring "Markups Sequence" n
      · simp [h, ih]
      · simp [h, ih]
  have h2 : ∀ ns : List String, (classifySequences ns).2 =
      (ns.filter fun n => containsSubstring "ROI_SEQUENCE" n).map
        (fun n => (roiClassLabel n, n)) := by
    intro ns
    induction ns with
    | nil => rfl
    | cons n rest ih =>
      simp only [classifySequences, List.filter_cons]
      by_cases h : containsSubstring "ROI_SEQUENCE" n
      · simp [h, ih]
      · simp [h, ih]
  refine ⟨by rw [h1]; rfl, by rw [h2]; rfl, fun _ => rfl, ?_⟩
  intro n _ hnb hnr
  constructor
  · intro p hp
    rw [h1] at hp
    obtain ⟨n', hn', rfl⟩ := List.mem_map.mp hp
    intro hcontra
    have hmem := (List.mem_filter.mp hn').2
    have heq : n' = n := hcontra
    rw [heq, hnb] at hmem
    cases hmem
  · intro p hp
    rw [h2] at hp
    obtain ⟨n', hn', rfl⟩ := List.mem_map.mp hp
    intro hcontra
    have hmem := (List.mem_filter.mp hn').2
    have heq : n' = n := hcontra
    rw [heq, hnr] at hmem
    cases hmem

/-- C5 (degenerate single-frame / empty track): on a well-formed track
with at most one valid frame, every metric returned by either accumulator
is 0.  Bounding-box validity is `isMarkupsFrameValid`; for region tracks
every frame counts as valid (`isROIFrameValid` is constantly true), so at
most one valid frame means at most one frame. -/
theorem degenerate_track_all_zero (frames : List (ℚ × List Point3))
    (roiFrames : List (ℚ × Point3))
    (hwf : ∀ f ∈ frames, isMarkupsFrameValid f.2 = true → f.2.length = 4)
    (hbb : (frames.filter fun f => isMarkupsFrameValid f.2).length ≤ 1)
    (hroi : (roiFrames.filter fun f => isROIFrameValid f.2).length ≤ 1) :
    calculateMetricsFromSequence frames = some ⟨0, 0, 0, 0, 0, 0, 0⟩ ∧
    calculateMetricsFromROISequence roiFrames = (0, 0) := by
  constructor
  · obtain ⟨s', hrun, hacc⟩ := bbRun_no_accum frames bbInit rfl hwf hbb
    unfold calculateMetricsFromSequence
    rw [hrun, Option.map_some']
    simp only [BBState.accums, bbInit, Prod.mk.injEq] at hacc
    obtain ⟨e1, e2, e3, e4, e5, e6⟩ := hacc
    simp [e1, e2, e3, e4, e5, e6]
  · have hlen : roiFrames.length ≤ 1 := by
      simpa [isROIFrameValid, List.filter_cons] using hroi
    rcases roiFrames with _ | ⟨⟨t, c⟩, _ | ⟨f2, rest2⟩⟩
    · rfl
    · have hfold : roiFold roiInit [(t, c)] =
          { roiInit with lastCenter := some c, lastTimestamp := some t } := by
        show roiStep roiInit (t, c).1 (t, c).2 = _
        exact roiStep_not_tracking roiInit t c (Or.inl rfl)
      rw [calcROI_eq, hfold]
      rfl
    · simp at hlen

/-- Witness for C5, at a one-valid-frame bounding-box track and a
one-frame region track. -/
theorem degenerate_track_all_zero_witness :
    calculateMetricsFromSequence
        [(0, [⟨1, 0, 0⟩, ⟨0, 0, 0⟩, ⟨0, 0, 0⟩, ⟨0, 0, 0⟩])] =
      some ⟨0, 0, 0, 0, 0, 0, 0⟩ ∧
    calculateMetricsFromROISequence [(5, ⟨1, 2, 3⟩)] = (0, 0) :=
  degenerate_track_all_zero
    [(0, [⟨1, 0, 0⟩, ⟨0, 0, 0⟩, ⟨0, 0, 0⟩, ⟨0, 0, 0⟩])]
    [(5, ⟨1, 2, 3⟩)] (by decide) (by decide) (by decide)

/-- C8 (monotonicity invariant): across a single loop iteration of either
accumulator, every path-length accumulator and the usage-time accumulator
are non-decreasing (usage time under the Track data-model invariant that
timestamps are non-decreasing, expressed as: the current timestamp is at
least the remembered one), and no accumulator is updated on an
invalid-frame step or on a step taken from the GAP state — i.e. nothing is
ever accumulated across an invalid-frame boundary. -/
theorem accumulators_monotone (s s' : BBState) (t : ℚ) (pts : List Point3)
    (r : ROIState) (t2 : ℚ) (c : Point3)
    (frames : List (ℚ × List Point3)) (sB sB' : BBState)
    (roiFrames : List (ℚ × Point3)) (rB : ROIState)
    (hstep : bbStep s t pts = some s')
    (hts : ∀ l, s.last = some l → l.lastTimestamp ≤ t)
    (hts2 : ∀ lt, r.lastTimestamp = some lt → lt ≤ t2)
    (hrun : bbRun sB frames = some sB')
    (hsort : List.Pairwise (fun a b : ℚ × List Point3 => a.1 ≤ b.1) frames)
    (hlow : ∀ l, sB.last = some l → ∀ f ∈ frames, l.lastTimestamp ≤ f.1)
    (hsort2 : List.Pairwise (fun a b : ℚ × Point3 => a.1 ≤ b.1) roiFrames)
    (hlow2 : ∀ lt, rB.lastTimestamp = some lt → ∀ f ∈ roiFrames, lt ≤ f.1) :
    (s.centerPathLength ≤ s'.centerPathLength ∧
     s.corner1PathLength ≤ s'.corner1PathLength ∧
     s.corner2PathLength ≤ s'.corner2PathLength ∧
     s.corner3PathLength ≤ s'.corner3PathLength ∧
     s.corner4PathLength ≤ s'.corner4PathLength ∧
     s.usageTime ≤ s'.usageTime) ∧
    (isMarkupsFrameValid pts = false → s'.accums = s.accums) ∧
    (s.last = none → s'.accums = s.accums) ∧
    (r.centerPathLength ≤ (roiStep r t2 c).centerPathLength ∧
     r.usageTime ≤ (roiStep r t2 c).usageTime) ∧
    ((r.lastCenter = none ∨ r.lastTimestamp = none) →
      (roiStep r t2 c).accums = r.accums) ∧
    (sB.centerPathLength ≤ sB'.centerPathLength ∧
     sB.corner1PathLength ≤ sB'.corner1PathLength ∧
     sB.corner2PathLength ≤ sB'.corner2PathLength ∧
     sB.corner3PathLength ≤ sB'.corner3PathLength ∧
     sB.corner4PathLength ≤ sB'.corner4PathLength ∧
     sB.usageTime ≤ sB'.usageTime) ∧
    (rB.centerPathLength ≤ (roiFold rB roiFrames).centerPathLength ∧
     rB.usageTime ≤ (roiFold rB roiFrames).usageTime) := by
  obtain ⟨p1, p2, p3, p4, p5⟩ := bbStep_path_mono hstep
  have husage : s.usageTime ≤ s'.usageTime := by
    rcases bbStep_usage hstep with he | ⟨l, hl, he⟩
    · rw [he]
    · rw [he]
      have := hts l hl
      linarith
  have husage2 : r.usageTime ≤ (roiStep r t2 c).usageTime := by
    rcases roiStep_usage r t2 c with he | ⟨lt, hlt, he⟩
    · rw [he]
    · rw [he]
      have := hts2 lt hlt
      linarith
  obtain ⟨q1, q2, q3, q4, q5⟩ := bbRun_path_mono frames hrun
  exact ⟨⟨p1, p2, p3, p4, p5, husage⟩,
    fun hv => bbStep_accums_of_invalid hstep hv,
    fun hl => bbStep_accums_of_gap hstep hl,
    ⟨roiStep_path_mono r t2 c, husage2⟩,
    fun h => roiStep_accums_no_last r t2 c h,
    ⟨q1, q2, q3, q4, q5, bbRun_usage_mono frames sB sB' hsort hlow hrun⟩,
    ⟨roiFold_path_mono roiFrames rB,
     roiFold_usage_mono roiFrames rB hsort2 hlow2⟩⟩

/-- Witness for C8, at an invalid-frame step from the initial state, a
one-invalid-frame run, and a one-frame ROI run. -/
theorem accumulators_monotone_witness :
    bbStep bbInit 1 [] = some { bbInit with last := none } ∧
    bbRun bbInit [(1, [])] = some { bbInit with last := none } ∧
    ((bbInit.centerPathLength ≤
        ({ bbInit with last := none } : BBState).centerPathLength ∧
      bbInit.corner1PathLength ≤
        ({ bbInit with last := none } : BBState).corner1PathLength ∧
      bbInit.corner2PathLength ≤
        ({ bbInit with last := none } : BBState).corner2PathLength ∧
      bbInit.corner3PathLength ≤
        ({ bbInit with last := none } : BBState).corner3PathLength ∧
      bbInit.corner4PathLength ≤
        ({ bbInit with last := none } : BBState).corner4PathLength ∧
      bbInit.usageTime ≤ ({ bbInit with last := none } : BBState).usageTime) ∧
     (isMarkupsFrameValid [] = false →
       ({ bbInit with last := none } : BBState).accums = bbInit.accums) ∧
     (bbInit.last = none →
       ({ bbInit with last := none } : BBState).accums = bbInit.accums) ∧
     (roiInit.centerPathLength ≤
        (roiStep roiInit 1 Point3.zero).centerPathLength ∧
      roiInit.usageTime ≤ (roiStep roiInit 1 Point3.zero).usageTime) ∧
     ((roiInit.lastCenter = none ∨ roiInit.lastTimestamp = none) →
       (roiStep roiInit 1 Point3.zero).accums = roiInit.accums) ∧
     (bbInit.centerPathLength ≤
        ({ bbInit with last := none } : BBState).centerPathLength ∧
      bbInit.corner1PathLength ≤
        ({ bbInit with last := none } : BBState).corner1PathLength ∧
      bbInit.corner2PathLength ≤
        ({ bbInit with last := none } : BBState).corner2PathLength ∧
      bbInit.corner3PathLength ≤
        ({ bbInit with last := none } : BBState).corner3PathLength ∧
      bbInit.corner4PathLength ≤
        ({ bbInit with last := none } : BBState).corner4PathLength ∧
      bbInit.usageTime ≤ ({ bbInit with last := none } : BBState).usageTime) ∧
     (roiInit.centerPathLength ≤
        (roiFold roiInit [(3, Point3.zero)]).centerPathLength ∧
      roiInit.usageTime ≤ (roiFold roiInit [(3, Point3.zero)]).usageTime)) :=
  ⟨bbStep_invalid bbInit 1 [] rfl, rfl,
   accumulators_monotone bbInit { bbInit with last := none } 1 [] roiInit 1
     Point3.zero [(1, [])] bbInit { bbInit with last := none }
     [(3, Point3.zero)] roiInit
     (bbStep_invalid bbInit 1 [] rfl)
     (fun l h => by simp [bbInit] at h)
     (fun lt h => by simp [roiInit] at h)
     rfl (by simp) (fun l h => by simp [bbInit] at h)
     (by simp) (fun lt h => by simp [roiInit] at h)⟩

/-- C10 (path lengths are non-negative regardless of timestamps): every
per-step path-length increment is a Euclidean distance, hence every
path-length accumulator never decreases across a step — with no hypothesis
on the timestamps — and all path lengths returned by either accumulator
are `≥ 0`. -/
theorem path_lengths_nonneg (frames : List (ℚ × List Point3)) (m : BBMetrics)
    (roiFrames : List (ℚ × Point3)) (s s' : BBState) (t : ℚ)
    (pts : List Point3) (r : ROIState) (t2 : ℚ) (c : Point3)
    (h : calculateMetricsFromSequence frames = some m)
    (hstep : bbStep s t pts = some s') :
    (0 ≤ m.centerPathLength ∧ 0 ≤ m.corner1PathLength ∧
     0 ≤ m.corner2PathLength ∧ 0 ≤ m.corner3PathLength ∧
     0 ≤ m.corner4PathLength ∧ 0 ≤ m.totalCornerPathLength) ∧
    0 ≤ (calculateMetricsFromROISequence roiFrames).1 ∧
    (s.centerPathLength ≤ s'.centerPathLength ∧
     s.corner1PathLength ≤ s'.corner1PathLength ∧
     s.corner2PathLength ≤ s'.corner2PathLength ∧
     s.corner3PathLength ≤ s'.corner3PathLength ∧
     s.corner4PathLength ≤ s'.corner4PathLength) ∧
    r.centerPathLength ≤ (roiStep r t2 c).centerPathLength := by
  refine ⟨?_, ?_, bbStep_path_mono hstep, roiStep_path_mono r t2 c⟩
  · unfold calculateMetricsFromSequence at h
    cases hb : bbRun bbInit frames with
    | none => rw [hb] at h; cases h
    | some sf =>
      rw [hb, Option.map_some'] at h
      obtain rfl := Option.some_inj.mp h
      obtain ⟨n1, n2, n3, n4, n5⟩ := bbRun_path_mono frames hb
      exact ⟨n1, n2, n3, n4, n5,
        add_nonneg (add_nonneg (add_nonneg n2 n3) n4) n5⟩
  · rw [calcROI_eq]
    exact roiFold_path_mono roiFrames roiInit

/-- Witness for C10, at the empty tracks and an invalid-frame step. -/
theorem path_lengths_nonneg_witness :
    calculateMetricsFromSequence [] =
      some ⟨0, 0 + 0 + 0 + 0, 0, 0, 0, 0, 0⟩ ∧
    bbStep bbInit 1 [] = some { bbInit with last := none } ∧
    ((0 ≤ (⟨0, 0 + 0 + 0 + 0, 0, 0, 0, 0, 0⟩ : BBMetrics).centerPathLength ∧
      0 ≤ (⟨0, 0 + 0 + 0 + 0, 0, 0, 0, 0, 0⟩ : BBMetrics).corner1PathLength ∧
      0 ≤ (⟨0, 0 + 0 + 0 + 0, 0, 0, 0, 0, 0⟩ : BBMetrics).corner2PathLength ∧
      0 ≤ (⟨0, 0 + 0 + 0 + 0, 0, 0, 0, 0, 0⟩ : BBMetrics).corner3PathLength ∧
      0 ≤ (⟨0, 0 + 0 + 0 + 0, 0, 0, 0, 0, 0⟩ : BBMetrics).corner4PathLength ∧
      0 ≤ (⟨0, 0 + 0 + 0 + 0, 0, 0, 0, 0, 0⟩ :
        BBMetrics).totalCornerPathLength) ∧
     0 ≤ (calculateMetricsFromROISequence []).1 ∧
     (bbInit.centerPathLength ≤
        ({ bbInit with last := none } : BBState).centerPathLength ∧
      bbInit.corner1PathLength ≤
        ({ bbInit with last := none } : BBState).corner1PathLength ∧
      bbInit.corner2PathLength ≤
        ({ bbInit with last := none } : BBState).corner2PathLength ∧
      bbInit.corner3PathLength ≤
        ({ bbInit with last := none } : BBState).corner3PathLength ∧
      bbInit.corner4PathLength ≤
        ({ bbInit with last := none } : BBState).corner4PathLength) ∧
     roiInit.centerPathLength ≤
       (roiStep roiInit 1 Point3.zero).centerPathLength) :=
  ⟨rfl, bbStep_invalid bbInit 1 [] rfl,
   path_lengths_nonneg [] ⟨0, 0 + 0 + 0 + 0, 0, 0, 0, 0, 0⟩ [] bbInit
     { bbInit with last := none } 1 [] roiInit 1 Point3.zero rfl
     (bbStep_invalid bbInit 1 [] rfl)⟩

/-- C1 (gap reset): for a track made of two runs of valid well-formed
frames separated by one invalid frame, the traversal succeeds and every
total (center path length, each corner path length, their sum, and usage
time) equals the sum of the totals obtained by processing the two runs
independently: the invalid frame contributes zero distance and zero time
and nothing is computed across it. -/
theorem gap_reset (r1 r2 : List (ℚ × List Point3)) (g : ℚ × List Point3)
    (h1 : ∀ f ∈ r1, isMarkupsFrameValid f.2 = true ∧ f.2.length = 4)
    (h2 : ∀ f ∈ r2, isMarkupsFrameValid f.2 = true ∧ f.2.length = 4)
    (hg : isMarkupsFrameValid g.2 = false) :
    ∃ m1 m2 m, calculateMetricsFromSequence r1 = some m1 ∧
      calculateMetricsFromSequence r2 = some m2 ∧
      calculateMetricsFromSequence (r1 ++ g :: r2) = some m ∧
      m.centerPathLength = m1.centerPathLength + m2.centerPathLength ∧
      m.corner1PathLength = m1.corner1PathLength + m2.corner1PathLength ∧
      m.corner2PathLength = m1.corner2PathLength + m2.corner2PathLength ∧
      m.corner3PathLength = m1.corner3PathLength + m2.corner3PathLength ∧
      m.corner4PathLength = m1.corner4PathLength + m2.corner4PathLength ∧
      m.totalCornerPathLength =
        m1.totalCornerPathLength + m2.totalCornerPathLength ∧
      m.usageTime = m1.usageTime + m2.usageTime := by
  obtain ⟨s1, hs1⟩ := bbRun_isSome_of_wf r1 bbInit (fun f hf _ => (h1 f hf).2)
  obtain ⟨s2, hs2⟩ := bbRun_isSome_of_wf r2 bbInit (fun f hf _ => (h2 f hf).2)
  have hcomb : bbRun bbInit (r1 ++ g :: r2) = some (shiftBB s1 s2) := by
    rw [bbRun_append, hs1]
    show bbRun s1 (g :: r2) = some (shiftBB s1 s2)
    obtain ⟨tg, ptsg⟩ := g
    simp only [bbRun, bbStep_invalid s1 tg ptsg hg]
    rw [← shiftBB_init s1, bbRun_shift, hs2]
    rfl
  refine ⟨_, _, _,
    (by unfold calculateMetricsFromSequence; rw [hs1, Option.map_some']),
    (by unfold calculateMetricsFromSequence; rw [hs2, Option.map_some']),
    (by unfold calculateMetricsFromSequence; rw [hcomb, Option.map_some']),
    rfl, rfl, rfl, rfl, rfl, ?_, rfl⟩
  show (shiftBB s1 s2).corner1PathLength + (shiftBB s1 s2).corner2PathLength
      + (shiftBB s1 s2).corner3PathLength + (shiftBB s1 s2).corner4PathLength
    = (s1.corner1PathLength + s1.corner2PathLength + s1.corner3PathLength
        + s1.corner4PathLength)
      + (s2.corner1PathLength + s2.corner2PathLength + s2.corner3PathLength
        + s2.corner4PathLength)
  simp only [shiftBB]
  ring

/-- Witness for C1: two one-valid-frame runs separated by an all-zero
frame. -/
theorem gap_reset_witness :
    ∃ m1 m2 m,
      calculateMetricsFromSequence
        [(0, [⟨1, 0, 0⟩, ⟨0, 0, 0⟩, ⟨0, 0, 0⟩, ⟨0, 0, 0⟩])] = some m1 ∧
      calculateMetricsFromSequence
        [(2, [⟨1, 0, 0⟩, ⟨0, 0, 0⟩, ⟨0, 0, 0⟩, ⟨0, 0, 0⟩])] = some m2 ∧
      calculateMetricsFromSequence
        ([(0, [⟨1, 0, 0⟩, ⟨0, 0, 0⟩, ⟨0, 0, 0⟩, ⟨0, 0, 0⟩])] ++
          (1, [⟨0, 0, 0⟩, ⟨0, 0, 0⟩, ⟨0, 0, 0⟩, ⟨0, 0, 0⟩]) ::
          [(2, [⟨1, 0, 0⟩, ⟨0, 0, 0⟩, ⟨0, 0, 0⟩, ⟨0, 0, 0⟩])]) = some m ∧
      m.centerPathLength = m1.centerPathLength + m2.centerPathLength ∧
      m.corner1PathLength = m1.corner1PathLength + m2.corner1PathLength ∧
      m.corner2PathLength = m1.corner2PathLength + m2.corner2PathLength ∧
      m.corner3PathLength = m1.corner3PathLength + m2.corner3PathLength ∧
      m.corner4PathLength = m1.corner4PathLength + m2.corner4PathLength ∧
      m.totalCornerPathLength =
        m1.totalCornerPathLength + m2.totalCornerPathLength ∧
      m.usageTime = m1.usageTime + m2.usageTime :=
  gap_reset
    [(0, [⟨1, 0, 0⟩, ⟨0, 0, 0⟩, ⟨0, 0, 0⟩, ⟨0, 0, 0⟩])]
    [(2, [⟨1, 0, 0⟩, ⟨0, 0, 0⟩, ⟨0, 0, 0⟩, ⟨0, 0, 0⟩])]
    (1, [⟨0, 0, 0⟩, ⟨0, 0, 0⟩, ⟨0, 0, 0⟩, ⟨0, 0, 0⟩])
    (by decide) (by decide) (by decide)

end CalculateSkillMetrics
